import Mathlib

/-!
Verification of the metrics-and-inference engine of `djia_analysis`
(`src/analysis.py`) against its design specification.

The engine is shallowly embedded: a pandas DataFrame is a column list
together with a list of rows; float values are modelled exactly, with
`Option` distinguishing finite values (`some q`) from non-finite floats
(`none`, covering NaN and ±inf, which the pipeline never separates).
Dates are modelled as integers (calendar dates are totally ordered) and
prices as rationals.
-/

/-- One cleaned price observation: a row of the engine's input table with
its `stock`, `date` and `close` fields. -/
structure Obs where
  stock : String
  date : Int
  close : ℚ
deriving DecidableEq, Repr

/-- An input DataFrame for `calculate_return` / `calculate_std`: the column
list is carried alongside the rows because the empty-input branch of both
functions returns the input frame itself, columns included. -/
structure ObsFrame where
  cols : List String
  rows : List Obs
deriving DecidableEq, Repr

/-- A single-valued metric DataFrame (`['stock', 'annualized_return']` or
`['stock', 'annualized_std']`): each row pairs a stock with the value of
the frame's one non-key column; `none` models a non-finite float. -/
structure MetricFrame (α : Type) where
  cols : List String
  rows : List (String × Option α)
deriving DecidableEq, Repr

/-- Comparison used by `df.sort_values(by=['stock', 'date'])`: lexicographic
on the stock name (compared character-by-character, the code-point order
Python uses on strings), then the date. (pandas' tie order for fully equal
keys is unspecified; the embedding fixes a deterministic sort, and every
theorem that depends on row order assumes distinct dates within the
relevant group.) -/
def rowLe (a b : Obs) : Prop :=
  a.stock.data < b.stock.data ∨ (a.stock = b.stock ∧ a.date ≤ b.date)

instance : DecidableRel rowLe := fun a b =>
  inferInstanceAs (Decidable (a.stock.data < b.stock.data ∨ (a.stock = b.stock ∧ a.date ≤ b.date)))

instance : IsTotal Obs rowLe where
  total a b := by
    rcases lt_trichotomy a.stock.data b.stock.data with h | h | h
    · exact Or.inl (Or.inl h)
    · have hs : a.stock = b.stock := by
        cases ha : a.stock with
        | mk la =>
          cases hb : b.stock with
          | mk lb =>
            rw [ha, hb] at h
            exact congrArg String.mk h
      rcases le_total a.date b.date with hd | hd
      · exact Or.inl (Or.inr ⟨hs, hd⟩)
      · exact Or.inr (Or.inr ⟨hs.symm, hd⟩)
    · exact Or.inr (Or.inl h)

instance : IsTrans Obs rowLe where
  trans a b c hab hbc := by
    rcases hab with h1 | ⟨e1, d1⟩
    · rcases hbc with h2 | ⟨e2, d2⟩
      · exact Or.inl (h1.trans h2)
      · exact Or.inl (e2 ▸ h1)
    · rcases hbc with h2 | ⟨e2, d2⟩
      · exact Or.inl (e1 ▸ h2)
      · exact Or.inr ⟨e1.trans e2, d1.trans d2⟩

/-- Date-only comparison, used on the specification side to time-order a
single instrument's observations. -/
def dateLe (a b : Obs) : Prop := a.date ≤ b.date

instance : DecidableRel dateLe := fun a b => inferInstanceAs (Decidable (a.date ≤ b.date))

instance : IsTotal Obs dateLe where
  total a b := le_total a.date b.date

instance : IsTrans Obs dateLe where
  trans _ _ _ hab hbc := le_trans hab hbc

/-- `df.sort_values(by=['stock', 'date'])`. -/
def sortRows (df : List Obs) : List Obs := List.insertionSort rowLe df

/-- Time-ordering of one instrument's observations (specification side). -/
def sortByDate (l : List Obs) : List Obs := List.insertionSort dateLe l

/-- The group keys produced by `df.groupby('stock')` on the sorted frame:
the distinct stocks, in sorted order (pandas sorts group keys). -/
def stocksOf (df : List Obs) : List String := ((sortRows df).map Obs.stock).dedup

/-- The time-ordered close prices of one stock in the sorted frame — the
series that `groupby('stock')['close']` exposes for that group. -/
def closesOf (df : List Obs) (s : String) : List ℚ :=
  ((sortRows df).filter (fun r => r.stock = s)).map Obs.close

/-- `pct_change` of a series: `x[t]/x[t-1] - 1` for consecutive entries.
The first entry of the group yields NaN in pandas and is simply absent
here; the downstream mean/std skip NaN, so the defined entries coincide. -/
def pctChange (xs : List ℚ) : List ℚ :=
  List.zipWith (fun p c => c / p - 1) xs xs.tail

/-- Arithmetic mean of a list of rationals (pandas `mean` over the non-NaN
entries of the group). -/
def meanQ (xs : List ℚ) : ℚ := xs.sum / (xs.length : ℚ)

/-- Sample variance with the `n - 1` divisor (pandas `std` squares to this;
pandas returns NaN when fewer than two entries exist, which the caller
guards). -/
def sampleVarQ (xs : List ℚ) : ℚ :=
  (xs.map (fun x => (x - meanQ xs) ^ 2)).sum / ((xs.length : ℚ) - 1)

/-- `calculate_return` (analysis.py:13-34): on an empty frame, returns the
input frame itself; otherwise sorts by `(stock, date)`, takes per-group
`pct_change`, and emits one row per group with the group mean of the weekly
returns times 52.  A group whose defined weekly returns are empty (a single
observation) has a NaN mean, kept as a `none`-valued row. -/
def calculate_return (df : ObsFrame) : MetricFrame ℝ :=
  if df.rows.isEmpty then ⟨df.cols, []⟩
  else
    ⟨["stock", "annualized_return"],
      (stocksOf df.rows).map fun s =>
        let rs := pctChange (closesOf df.rows s)
        (s, if rs.isEmpty then none else some ((meanQ rs * 52 : ℚ) : ℝ))⟩

/-- `calculate_std` (analysis.py:36-58): same pipeline with the per-group
sample standard deviation, annualized by `* np.sqrt(52)`.  pandas `std`
returns NaN (here `none`) when the group has fewer than two defined weekly
returns. -/
noncomputable def calculate_std (df : ObsFrame) : MetricFrame ℝ :=
  if df.rows.isEmpty then ⟨df.cols, []⟩
  else
    ⟨["stock", "annualized_std"],
      (stocksOf df.rows).map fun s =>
        let rs := pctChange (closesOf df.rows s)
        (s, if rs.length ≤ 1 then none
            else some (Real.sqrt ((sampleVarQ rs : ℚ) : ℝ) * Real.sqrt 52))⟩

/-- Float subtraction of a finite scalar: a NaN left operand propagates. -/
def fsub {α : Type} [Sub α] (a : Option α) (c : α) : Option α := a.map (· - c)

/-- Float division on possibly-non-finite operands: a non-finite operand
propagates, and a zero divisor produces a non-finite float (±inf, or NaN
for 0/0), all collapsed into `none`. -/
def fdiv {α : Type} [Div α] [Zero α] [DecidableEq α] (a b : Option α) : Option α :=
  match a, b with
  | some x, some y => if y = 0 then none else some (x / y)
  | _, _ => none

/-- One row of the SharpeMetric table. -/
structure SharpeRow (α : Type) where
  stock : String
  ret : Option α
  std : Option α
  sharpe : Option α
deriving DecidableEq, Repr

/-- The SharpeMetric DataFrame. -/
structure SharpeFrame (α : Type) where
  cols : List String
  rows : List (SharpeRow α)
deriving DecidableEq, Repr

/-- Column list of `pd.merge(left, right, on='stock', how='inner')`: key
column once, then the remaining left columns (suffixed `_x` when shared
with the right), then the remaining right columns (suffixed `_y`). -/
def mergeCols (lc rc : List String) : List String :=
  lc.map (fun c => if c ≠ "stock" ∧ c ∈ rc then c ++ "_x" else c)
    ++ (rc.filter (fun c => c ≠ "stock")).map (fun c => if c ∈ lc then c ++ "_y" else c)

/-- Row list of the inner merge on `stock`: pandas keeps the left row
order and, within one left row, the order of the matching right rows. -/
def joinRows {α : Type} (lr rr : List (String × Option α)) :
    List (String × Option α × Option α) :=
  lr.flatMap fun p => (rr.filter (fun q => q.1 = p.1)).map fun q => (p.1, p.2, q.2)

/-- `calculate_sharpe_ratio` (analysis.py:60-78): inner merge on `stock`,
then `sharpe_ratio = (annualized_return - risk_free_rate) / annualized_std`
row by row, then column selection.  A missing merge key or a missing value
column raises a pandas `KeyError`, modelled as the `Except` error branch;
the checks appear in Python evaluation order (merge first, then the
`annualized_return` and `annualized_std` lookups). -/
def calculate_sharpe_ratio {α : Type} [Sub α] [Div α] [Zero α] [DecidableEq α]
    (df_return df_std : MetricFrame α) (risk_free_rate : α) :
    Except String (SharpeFrame α) :=
  if "stock" ∈ df_return.cols ∧ "stock" ∈ df_std.cols then
    let mcols := mergeCols df_return.cols df_std.cols
    if "annualized_return" ∈ mcols then
      if "annualized_std" ∈ mcols then
        .ok ⟨["stock", "annualized_return", "annualized_std", "sharpe_ratio"],
          (joinRows df_return.rows df_std.rows).map fun t =>
            ⟨t.1, t.2.1, t.2.2, fdiv (fsub t.2.1 risk_free_rate) t.2.2⟩⟩
      else .error "KeyError: annualized_std"
    else .error "KeyError: annualized_return"
  else .error "KeyError: stock"

/-- Test whether all independent-variable values coincide
(`np.amax(x) == np.amin(x)`). -/
def allSameX (pts : List (ℚ × ℚ)) : Bool :=
  (pts.map Prod.fst).all (fun v => v = (pts.map Prod.fst).headD 0)

/-- Modelled from the external library boundary, `scipy.stats.linregress`:
it raises `ValueError` on empty inputs, raises `ValueError` when more than
one point is supplied and every x value is identical, and otherwise
computes the closed-form OLS estimate `slope = ssxym / ssxm` from the
`np.cov(x, y, bias=1)` statistics with `intercept = ymean - slope * xmean`.
With exactly one point `ssxm = 0`, the float quotient `0/0` is NaN
(`none` here) and scipy returns it without raising. -/
def linregress (pts : List (ℚ × ℚ)) : Except String (Option ℚ × Option ℚ) :=
  if pts.isEmpty then .error "Inputs must not be empty."
  else if 1 < pts.length ∧ allSameX pts then
    .error "Cannot calculate a linear regression if all x values are identical"
  else
    let xs := pts.map Prod.fst
    let ymean := meanQ (pts.map Prod.snd)
    let xmean := meanQ xs
    let ssxm := (xs.map (fun x => (x - xmean) ^ 2)).sum / (pts.length : ℚ)
    let ssxym := ((pts.map (fun p => (p.1 - xmean) * (p.2 - ymean))).sum) / (pts.length : ℚ)
    if ssxm = 0 then .ok (none, none)
    else .ok (some (ssxym / ssxm), some (ymean - ssxym / ssxm * xmean))

/-- Observable outcome of `test_hypothesis`: the returned slope and
intercept, together with the printed one-sided p-value and the printed
verdict (`True` when the null hypothesis is rejected). -/
structure TestResult where
  slope : Option ℚ
  intercept : Option ℚ
  pOneSided : ℚ
  reject : Bool
deriving DecidableEq, Repr

/-- Truth value of the Python comparison `slope > 0` when the slope may be
NaN: every comparison with NaN is `False`. -/
def gtZero (a : Option ℚ) : Bool :=
  match a with
  | some q => decide (0 < q)
  | none => false

/-- `test_hypothesis` (analysis.py:80-117) on the SharpeMetric table's
`(annualized_std, annualized_return)` pairs.  The two-sided p-value `p2`
that scipy derives from the t-distribution is taken as a boundary input
(its numeric computation lives inside scipy, not in the engine); the
function halves it when the fitted slope is positive and reports `1.0`
otherwise, and rejects the null hypothesis iff the one-sided p-value is
below `alpha` and the slope is positive. -/
def test_hypothesis (pts : List (ℚ × ℚ)) (p2 alpha : ℚ) : Except String TestResult :=
  match linregress pts with
  | .error e => .error e
  | .ok (slope, intercept) =>
      let pOne := if gtZero slope then p2 / 2 else 1
      .ok ⟨slope, intercept, pOne, decide (pOne < alpha) && gtZero slope⟩

/-- Explicit-state reading of `calculate_return`: the result is paired with
the caller's frame as it stands after the call.  In the body, `df =
df.sort_values(...)` rebinds the local name to a freshly allocated frame
and the column assignment `df['weekly_return'] = ...` mutates that fresh
frame only, so the caller's object is never written to. -/
def calculate_return_effect (df : ObsFrame) : MetricFrame ℝ × ObsFrame :=
  (calculate_return df, df)

/-- Explicit-state reading of `calculate_std`; the body has the same
copy-then-mutate shape as `calculate_return`. -/
noncomputable def calculate_std_effect (df : ObsFrame) : MetricFrame ℝ × ObsFrame :=
  (calculate_std df, df)

/-- Explicit-state reading of `calculate_sharpe_ratio`: `pd.merge`
allocates a fresh frame and the `sharpe_ratio` column is added to that
fresh frame, so both argument frames come back to the caller unchanged. -/
def calculate_sharpe_ratio_effect {α : Type} [Sub α] [Div α] [Zero α] [DecidableEq α]
    (df_return df_std : MetricFrame α) (risk_free_rate : α) :
    Except String (SharpeFrame α) × MetricFrame α × MetricFrame α :=
  (calculate_sharpe_ratio df_return df_std risk_free_rate, df_return, df_std)

/-- Specification-side period returns of one instrument (spec §3,
`PeriodReturn`): its own rows, time-ordered, reduced to consecutive
close-price changes `close[t]/close[t-1] - 1`. -/
def specReturns (df : ObsFrame) (s : String) : List ℚ :=
  pctChange ((sortByDate (df.rows.filter (fun r => r.stock = s))).map Obs.close)

/-- Strict date comparison, used to identify the two sorted forms of a
group when its dates are distinct. -/
def dateLt (a b : Obs) : Prop := a.date < b.date

instance : IsAntisymm Obs dateLt where
  antisymm _ _ h h' := absurd h h'.asymm

lemma sortRows_perm (df : List Obs) : List.Perm (sortRows df) df :=
  List.perm_insertionSort rowLe df

lemma sortByDate_perm (l : List Obs) : List.Perm (sortByDate l) l :=
  List.perm_insertionSort dateLe l

lemma sorted_dateLe_of_pairwise_rowLe {l : List Obs} {s : String}
    (hs : ∀ r ∈ l, r.stock = s) (h : l.Pairwise rowLe) : l.Pairwise dateLe := by
  refine h.imp_of_mem ?_
  intro a b ha hb hab
  rcases hab with hlt | ⟨_, hle⟩
  · rw [hs a ha, hs b hb] at hlt
    exact absurd hlt (lt_irrefl s.data)
  · exact hle

lemma pairwise_dateLt_of_nodup {l : List Obs}
    (hle : l.Pairwise dateLe) (hnd : (l.map Obs.date).Nodup) : l.Pairwise dateLt := by
  have hne : l.Pairwise (fun a b : Obs => a.date ≠ b.date) :=
    List.pairwise_map.mp hnd
  exact (hle.and hne).imp (fun h => lt_of_le_of_ne h.1 h.2)

/-- Filtering the globally `(stock, date)`-sorted frame down to one stock
gives exactly that stock's rows sorted by date, provided the stock's dates
are distinct (otherwise the row order at ties is unspecified in pandas). -/
lemma filter_sortRows_eq (df : List Obs) (s : String)
    (hnd : ((df.filter (fun r => r.stock = s)).map Obs.date).Nodup) :
    (sortRows df).filter (fun r => r.stock = s) =
      sortByDate (df.filter (fun r => r.stock = s)) := by
  have hperm1 : List.Perm ((sortRows df).filter (fun r => r.stock = s))
      (df.filter (fun r => r.stock = s)) :=
    (sortRows_perm df).filter _
  have hperm2 : List.Perm (sortByDate (df.filter (fun r => r.stock = s)))
      (df.filter (fun r => r.stock = s)) :=
    sortByDate_perm _
  have hstol : ∀ r ∈ (sortRows df).filter (fun r => r.stock = s), r.stock = s := by
    intro r hr
    exact of_decide_eq_true (List.mem_filter.mp hr).2
  have hsorted1 : ((sortRows df).filter (fun r => r.stock = s)).Pairwise dateLe :=
    sorted_dateLe_of_pairwise_rowLe hstol
      ((List.sorted_insertionSort rowLe df).filter _)
  have hsorted2 : (sortByDate (df.filter (fun r => r.stock = s))).Pairwise dateLe :=
    List.sorted_insertionSort dateLe _
  have hnd1 : (((sortRows df).filter (fun r => r.stock = s)).map Obs.date).Nodup :=
    (hperm1.map Obs.date).nodup_iff.mpr hnd
  have hnd2 : ((sortByDate (df.filter (fun r => r.stock = s))).map Obs.date).Nodup :=
    (hperm2.map Obs.date).nodup_iff.mpr hnd
  exact List.eq_of_perm_of_sorted (hperm1.trans hperm2.symm)
    (pairwise_dateLt_of_nodup hsorted1 hnd1)
    (pairwise_dateLt_of_nodup hsorted2 hnd2)

lemma closesOf_eq_spec (df : ObsFrame) (s : String)
    (hnd : ((df.rows.filter (fun r => r.stock = s)).map Obs.date).Nodup) :
    closesOf df.rows s =
      (sortByDate (df.rows.filter (fun r => r.stock = s))).map Obs.close := by
  unfold closesOf
  rw [filter_sortRows_eq df.rows s hnd]

lemma closesOf_length (df : List Obs) (s : String) :
    (closesOf df s).length = (df.filter (fun r => r.stock = s)).length := by
  unfold closesOf
  rw [List.length_map]
  exact ((sortRows_perm df).filter _).length_eq

lemma pctChange_length (xs : List ℚ) : (pctChange xs).length = xs.length - 1 := by
  unfold pctChange
  rw [List.length_zipWith, List.length_tail]
  omega

lemma mem_stocksOf {df : List Obs} {s : String}
    (h : 0 < (df.filter (fun r => r.stock = s)).length) : s ∈ stocksOf df := by
  obtain ⟨r, hr⟩ := List.exists_mem_of_length_pos h
  have hrs : r.stock = s := of_decide_eq_true (List.mem_filter.mp hr).2
  have hrdf : r ∈ df := (List.mem_filter.mp hr).1
  have : r ∈ sortRows df := ((sortRows_perm df).mem_iff).mpr hrdf
  unfold stocksOf
  exact List.mem_dedup.mpr (hrs ▸ List.mem_map_of_mem Obs.stock this)

/-- C1: for every instrument with at least 2 price observations
(time-ordered within its group, so with distinct dates), the output of
`calculate_return` for that instrument equals the arithmetic mean of its
period returns `close[t]/close[t-1] - 1` multiplied by 52, and — as soon
as the sample standard deviation with its `n-1` divisor is defined, i.e.
with at least two period returns — the output of `calculate_std` equals
the sample standard deviation of those period returns multiplied by
`sqrt 52`. -/
theorem C1_metrics_match_spec (df : ObsFrame) (s : String)
    (h2 : 2 ≤ (df.rows.filter (fun r => r.stock = s)).length)
    (hnd : ((df.rows.filter (fun r => r.stock = s)).map Obs.date).Nodup) :
    (s, some ((meanQ (specReturns df s) * 52 : ℚ) : ℝ)) ∈ (calculate_return df).rows ∧
    (3 ≤ (df.rows.filter (fun r => r.stock = s)).length →
      (s, some (Real.sqrt ((sampleVarQ (specReturns df s) : ℚ) : ℝ) * Real.sqrt 52)) ∈
        (calculate_std df).rows) := by
  have hne : df.rows.isEmpty = false := by
    rcases hdf : df.rows with _ | ⟨a, l⟩
    · rw [hdf] at h2
      simp at h2
    · rfl
  have hrs_eq : pctChange (closesOf df.rows s) = specReturns df s := by
    unfold specReturns
    rw [closesOf_eq_spec df s hnd]
  have hlen : (pctChange (closesOf df.rows s)).length =
      (df.rows.filter (fun r => r.stock = s)).length - 1 := by
    rw [pctChange_length, closesOf_length]
  have hmem : s ∈ stocksOf df.rows :=
    mem_stocksOf (lt_of_lt_of_le (by norm_num) h2)
  constructor
  · have hempty_false : (pctChange (closesOf df.rows s)).isEmpty = false := by
      have hpos : 0 < (pctChange (closesOf df.rows s)).length := by omega
      cases hrs : pctChange (closesOf df.rows s) with
      | nil => rw [hrs] at hpos; simp at hpos
      | cons a l => rfl
    unfold calculate_return
    rw [hne]
    simp only [Bool.false_eq_true, if_false, List.mem_map]
    refine ⟨s, hmem, ?_⟩
    rw [hrs_eq] at hempty_false
    simp only [hrs_eq, hempty_false, Bool.false_eq_true, if_false]
  · intro h3
    have hgt : ¬ (pctChange (closesOf df.rows s)).length ≤ 1 := by omega
    unfold calculate_std
    rw [hne]
    simp only [Bool.false_eq_true, if_false, List.mem_map]
    refine ⟨s, hmem, ?_⟩
    rw [hrs_eq] at hgt
    simp only [hrs_eq, if_neg hgt]

/-- Concrete three-observation input used to instantiate C1. -/
def dfC1 : ObsFrame :=
  ⟨["stock", "date", "close"], [⟨"A", 0, 1⟩, ⟨"A", 1, 2⟩, ⟨"A", 2, 1⟩]⟩

/-- Witness for C1 at a concrete input: stock `"A"` with closes
`[1, 2, 1]` has three distinct-dated observations, and the theorem applies. -/
theorem C1_metrics_match_spec_witness :
    (2 ≤ (dfC1.rows.filter (fun r => r.stock = "A")).length ∧
      ((dfC1.rows.filter (fun r => r.stock = "A")).map Obs.date).Nodup) ∧
    (("A", some ((meanQ (specReturns dfC1 "A") * 52 : ℚ) : ℝ)) ∈
        (calculate_return dfC1).rows ∧
      (3 ≤ (dfC1.rows.filter (fun r => r.stock = "A")).length →
        ("A", some (Real.sqrt ((sampleVarQ (specReturns dfC1 "A") : ℚ) : ℝ) *
            Real.sqrt 52)) ∈ (calculate_std dfC1).rows)) :=
  ⟨⟨by decide, by decide⟩, C1_metrics_match_spec dfC1 "A" (by decide) (by decide)⟩

/-- Counterexample to C4 as stated: a stock with a single price observation
(hence zero defined period returns) is not absent from the outputs of
`calculate_return` and `calculate_std`; both emit a row for it whose metric
value is NaN (`none`). -/
theorem C4_counterexample :
    calculate_return ⟨["stock", "date", "close"], [⟨"B", 0, 10⟩]⟩ =
      ⟨["stock", "annualized_return"], [("B", none)]⟩ ∧
    calculate_std ⟨["stock", "date", "close"], [⟨"B", 0, 10⟩]⟩ =
      ⟨["stock", "annualized_std"], [("B", none)]⟩ :=
  ⟨rfl, rfl⟩

/-- C4 amended: an instrument with zero or one defined period return is
present in the metric outputs rather than absent, carrying a NaN value and
causing no failure: with exactly one observation its `calculate_return`
row is `none`, and with at most two observations (hence at most one
defined period return) its `calculate_std` row is `none`. -/
theorem C4_amended_nan_rows (df : ObsFrame) (s : String)
    (h1 : 1 ≤ (df.rows.filter (fun r => r.stock = s)).length) :
    ((df.rows.filter (fun r => r.stock = s)).length = 1 →
      (s, none) ∈ (calculate_return df).rows) ∧
    ((df.rows.filter (fun r => r.stock = s)).length ≤ 2 →
      (s, none) ∈ (calculate_std df).rows) := by
  have hne : df.rows.isEmpty = false := by
    rcases hdf : df.rows with _ | ⟨a, l⟩
    · rw [hdf] at h1
      simp at h1
    · rfl
  have hlen : (pctChange (closesOf df.rows s)).length =
      (df.rows.filter (fun r => r.stock = s)).length - 1 := by
    rw [pctChange_length, closesOf_length]
  have hmem : s ∈ stocksOf df.rows :=
    mem_stocksOf (lt_of_lt_of_le (by norm_num) h1)
  constructor
  · intro hone
    have hempty : (pctChange (closesOf df.rows s)).isEmpty = true := by
      have : (pctChange (closesOf df.rows s)).length = 0 := by omega
      cases hrs : pctChange (closesOf df.rows s) with
      | nil => rfl
      | cons a l => rw [hrs] at this; simp at this
    unfold calculate_return
    rw [hne]
    simp only [Bool.false_eq_true, if_false, List.mem_map]
    exact ⟨s, hmem, by simp only [hempty, if_true]⟩
  · intro htwo
    have hle : (pctChange (closesOf df.rows s)).length ≤ 1 := by omega
    unfold calculate_std
    rw [hne]
    simp only [Bool.false_eq_true, if_false, List.mem_map]
    exact ⟨s, hmem, by simp only [if_pos hle]⟩

/-- Concrete single-observation input used to instantiate the amended C4. -/
def dfC4 : ObsFrame := ⟨["stock", "date", "close"], [⟨"C", 5, 3⟩]⟩

/-- Witness for the amended C4 at a concrete single-observation input. -/
theorem C4_amended_nan_rows_witness :
    (1 ≤ (dfC4.rows.filter (fun r => r.stock = "C")).length ∧
      (dfC4.rows.filter (fun r => r.stock = "C")).length = 1 ∧
      (dfC4.rows.filter (fun r => r.stock = "C")).length ≤ 2) ∧
    ("C", none) ∈ (calculate_return dfC4).rows ∧
    ("C", none) ∈ (calculate_std dfC4).rows :=
  ⟨⟨by decide, by decide, by decide⟩,
    (C4_amended_nan_rows dfC4 "C" (by decide)).1 (by decide),
    (C4_amended_nan_rows dfC4 "C" (by decide)).2 (by decide)⟩

/-- C9: every `annualized_std` value present in the output of
`calculate_std` is nonnegative — it is a square root times a square root. -/
theorem C9_std_nonneg (df : ObsFrame) (s : String) (v : ℝ)
    (h : (s, some v) ∈ (calculate_std df).rows) : 0 ≤ v := by
  unfold calculate_std at h
  by_cases hdf : df.rows.isEmpty = true
  · rw [if_pos hdf] at h
    simp at h
  · rw [if_neg hdf] at h
    simp only [List.mem_map] at h
    obtain ⟨a, _, ha⟩ := h
    by_cases hl : (pctChange (closesOf df.rows a)).length ≤ 1
    · rw [if_pos hl] at ha
      exact absurd (congrArg Prod.snd ha) (by simp)
    · rw [if_neg hl] at ha
      have hv : Real.sqrt ((sampleVarQ (pctChange (closesOf df.rows a)) : ℚ) : ℝ) *
          Real.sqrt 52 = v := by
        have := congrArg Prod.snd ha
        simpa using this
      rw [← hv]
      exact mul_nonneg (Real.sqrt_nonneg _) (Real.sqrt_nonneg _)

/-- Concrete three-observation input used to instantiate C9. -/
def dfC9 : ObsFrame :=
  ⟨["stock", "date", "close"], [⟨"A", 0, 4⟩, ⟨"A", 1, 2⟩, ⟨"A", 2, 6⟩]⟩

/-- Witness for C9: the single output row of `calculate_std` on a concrete
three-observation series carries a nonnegative value. -/
theorem C9_std_nonneg_witness :
    ("A", some (Real.sqrt ((sampleVarQ (pctChange (closesOf dfC9.rows "A")) : ℚ) : ℝ) *
        Real.sqrt 52)) ∈ (calculate_std dfC9).rows ∧
    0 ≤ Real.sqrt ((sampleVarQ (pctChange (closesOf dfC9.rows "A")) : ℚ) : ℝ) *
        Real.sqrt 52 := by
  have hmem : ("A", some (Real.sqrt ((sampleVarQ (pctChange (closesOf dfC9.rows "A")) : ℚ) : ℝ) *
      Real.sqrt 52)) ∈ (calculate_std dfC9).rows := by
    unfold calculate_std
    rw [if_neg (by decide), show stocksOf dfC9.rows = ["A"] by rfl]
    simp only [List.map_cons, List.map_nil]
    rw [if_neg (by decide)]
    exact List.mem_singleton_self _
  exact ⟨hmem, C9_std_nonneg dfC9 "A" _ hmem⟩

/-- Counterexample to C8 as stated: the engine performs no input
validation.  On a series whose second row carries a negative close price,
`calculate_return` computes the period return from that row — the output
is `(-2/1 - 1) * 52 = -156` — whereas the same input with the non-positive
row removed leaves one observation and a NaN row.  The outputs differ, so
rows with non-positive close prices are neither rejected nor skipped. -/
theorem C8_counterexample :
    calculate_return ⟨["stock", "date", "close"], [⟨"A", 0, 1⟩, ⟨"A", 1, -2⟩]⟩ =
      ⟨["stock", "annualized_return"], [("A", some ((-156 : ℚ) : ℝ))]⟩ ∧
    calculate_return ⟨["stock", "date", "close"],
        [⟨"A", 0, 1⟩, ⟨"A", 1, -2⟩].filter (fun r => 0 < r.close)⟩ =
      ⟨["stock", "annualized_return"], [("A", none)]⟩ := by
  constructor
  · have hval : meanQ (pctChange [1, -2]) * 52 = (-156 : ℚ) := by
      simp [pctChange, meanQ]
      norm_num
    calc calculate_return ⟨["stock", "date", "close"], [⟨"A", 0, 1⟩, ⟨"A", 1, -2⟩]⟩
        = ⟨["stock", "annualized_return"],
            [("A", some ((meanQ (pctChange [1, -2]) * 52 : ℚ) : ℝ))]⟩ := rfl
      _ = ⟨["stock", "annualized_return"], [("A", some ((-156 : ℚ) : ℝ))]⟩ := by
          rw [hval]
  · rfl

/-- C8 amended: no validation is applied before return computation: a row
with a non-positive close price participates in it.  For every
non-positive close `c` observed after a close of 1, the emitted
annualized return is `(c - 1) * 52`, computed from the invalid row; had
that row been rejected or skipped, the instrument would have had a single
observation and a NaN row. -/
theorem C8_amended_no_validation (c : ℚ) (hc : c ≤ 0) :
    calculate_return ⟨["stock", "date", "close"], [⟨"A", 0, 1⟩, ⟨"A", 1, c⟩]⟩ =
      ⟨["stock", "annualized_return"], [("A", some (((c - 1) * 52 : ℚ) : ℝ))]⟩ := by
  have hval : meanQ (pctChange [1, c]) * 52 = (c - 1) * 52 := by
    simp [pctChange, meanQ]
  calc calculate_return ⟨["stock", "date", "close"], [⟨"A", 0, 1⟩, ⟨"A", 1, c⟩]⟩
      = ⟨["stock", "annualized_return"],
          [("A", some ((meanQ (pctChange [1, c]) * 52 : ℚ) : ℝ))]⟩ := rfl
    _ = ⟨["stock", "annualized_return"], [("A", some (((c - 1) * 52 : ℚ) : ℝ))]⟩ := by
        rw [hval]

/-- Witness for the amended C8 at the concrete non-positive close 0. -/
theorem C8_amended_no_validation_witness :
    ((0 : ℚ) ≤ 0) ∧
    calculate_return ⟨["stock", "date", "close"], [⟨"A", 0, 1⟩, ⟨"A", 1, 0⟩]⟩ =
      ⟨["stock", "annualized_return"], [("A", some ((((0 : ℚ) - 1) * 52 : ℚ) : ℝ))]⟩ :=
  ⟨le_refl 0, C8_amended_no_validation 0 (le_refl 0)⟩

lemma mem_fst_joinRows {α : Type} {lr rr : List (String × Option α)} {s : String} :
    s ∈ (joinRows lr rr).map Prod.fst ↔
      s ∈ lr.map Prod.fst ∧ s ∈ rr.map Prod.fst := by
  constructor
  · intro h
    obtain ⟨t, ht, hts⟩ := List.mem_map.mp h
    obtain ⟨p, hp, hq⟩ := List.mem_flatMap.mp ht
    obtain ⟨q, hqf, hqe⟩ := List.mem_map.mp hq
    obtain ⟨hqr, hq1⟩ := List.mem_filter.mp hqf
    have hq1' : q.1 = p.1 := of_decide_eq_true hq1
    have hps : p.1 = s := by rw [← hts, ← hqe]
    exact ⟨List.mem_map.mpr ⟨p, hp, hps⟩,
      List.mem_map.mpr ⟨q, hqr, hq1'.trans hps⟩⟩
  · rintro ⟨hl, hr⟩
    obtain ⟨p, hp, hps⟩ := List.mem_map.mp hl
    obtain ⟨q, hq, hqs⟩ := List.mem_map.mp hr
    refine List.mem_map.mpr ⟨(p.1, p.2, q.2), ?_, hps⟩
    refine List.mem_flatMap.mpr ⟨p, hp, ?_⟩
    exact List.mem_map.mpr
      ⟨q, List.mem_filter.mpr ⟨hq, decide_eq_true (hqs.trans hps.symm)⟩, rfl⟩

lemma filter_key_length_le_one {α : Type} {rr : List (String × Option α)}
    (hnd : (rr.map Prod.fst).Nodup) (s : String) :
    (rr.filter (fun q => q.1 = s)).length ≤ 1 := by
  induction rr with
  | nil => simp
  | cons q tl ih =>
    rw [List.map_cons, List.nodup_cons] at hnd
    rw [List.filter_cons]
    by_cases h : q.1 = s
    · have hnil : tl.filter (fun q' => decide (q'.1 = s)) = [] := by
        rw [List.filter_eq_nil_iff]
        intro a ha hdec
        have has : a.1 = s := of_decide_eq_true hdec
        exact hnd.1 (List.mem_map.mpr ⟨a, ha, has.trans h.symm⟩)
      simp [h, hnil]
    · rw [if_neg (by simpa using h)]
      exact ih hnd.2

lemma joinRows_length_le_left {α : Type} {lr rr : List (String × Option α)}
    (hndS : (rr.map Prod.fst).Nodup) :
    (joinRows lr rr).length ≤ lr.length := by
  induction lr with
  | nil => simp [joinRows]
  | cons p tl ih =>
    simp only [joinRows, List.flatMap_cons, List.length_append, List.length_map,
      List.length_cons] at ih ⊢
    have h1 := filter_key_length_le_one hndS p.1
    omega

lemma nodup_of_length_le_one {α : Type} {l : List α} (h : l.length ≤ 1) : l.Nodup := by
  cases l with
  | nil => exact List.nodup_nil
  | cons a tl =>
    cases tl with
    | nil => simp
    | cons b tl' => simp at h

lemma nodup_fst_joinRows {α : Type} {lr rr : List (String × Option α)}
    (hndL : (lr.map Prod.fst).Nodup) (hndR : (rr.map Prod.fst).Nodup) :
    ((joinRows lr rr).map Prod.fst).Nodup := by
  induction lr with
  | nil => simp [joinRows]
  | cons p tl ih =>
    rw [List.map_cons, List.nodup_cons] at hndL
    simp only [joinRows, List.flatMap_cons, List.map_append]
    refine List.Nodup.append ?_ ?_ ?_
    · refine nodup_of_length_le_one ?_
      simp only [List.length_map]
      exact filter_key_length_le_one hndR p.1
    · exact ih hndL.2
    · intro a ha hb
      have hap : a = p.1 := by
        simp only [List.map_map, List.mem_map] at ha
        obtain ⟨q, _, hq⟩ := ha
        exact hq.symm
      have : p.1 ∈ tl.map Prod.fst := by
        have hb' : a ∈ (joinRows tl rr).map Prod.fst := by
          simpa [joinRows] using hb
        exact hap ▸ (mem_fst_joinRows.mp hb').1
      exact hndL.1 this

lemma joinRows_length_le_right {α : Type} {lr rr : List (String × Option α)}
    (hndL : (lr.map Prod.fst).Nodup) (hndR : (rr.map Prod.fst).Nodup) :
    (joinRows lr rr).length ≤ rr.length := by
  have h1 : ((joinRows lr rr).map Prod.fst).Nodup := nodup_fst_joinRows hndL hndR
  have h2 : (joinRows lr rr).map Prod.fst ⊆ rr.map Prod.fst :=
    fun a ha => (mem_fst_joinRows.mp ha).2
  have h3 : ((joinRows lr rr).map Prod.fst).length ≤ (rr.map Prod.fst).length :=
    (h1.subperm h2).length_le
  simpa using h3

/-- C3: for every pair of (uniquely keyed) ReturnMetric and RiskMetric
inputs and caller-supplied risk-free rate, `calculate_sharpe_ratio`
succeeds and returns exactly the rows whose stock appears in both inputs
(inner join: a stock present on only one side is silently dropped, with no
error), its size is at most the smaller input's size, and every output
row's `sharpe_ratio` is `(annualized_return - risk_free_rate) /
annualized_std` — in particular `some ((r - rf) / sd)` whenever both
inputs are finite and the divisor is nonzero. -/
theorem C3_sharpe_inner_join {α : Type} [Sub α] [Div α] [Zero α] [DecidableEq α]
    (df_return df_std : MetricFrame α) (rf : α)
    (hcR : df_return.cols = ["stock", "annualized_return"])
    (hcS : df_std.cols = ["stock", "annualized_std"])
    (hnR : (df_return.rows.map Prod.fst).Nodup)
    (hnS : (df_std.rows.map Prod.fst).Nodup) :
    ∃ out, calculate_sharpe_ratio df_return df_std rf = .ok out ∧
      (∀ s, s ∈ out.rows.map SharpeRow.stock ↔
        s ∈ df_return.rows.map Prod.fst ∧ s ∈ df_std.rows.map Prod.fst) ∧
      out.rows.length ≤ min df_return.rows.length df_std.rows.length ∧
      ∀ t ∈ out.rows, t.sharpe = fdiv (fsub t.ret rf) t.std ∧
        ∀ r sd, t.ret = some r → t.std = some sd → sd ≠ 0 →
          t.sharpe = some ((r - rf) / sd) := by
  unfold calculate_sharpe_ratio
  rw [hcR, hcS]
  rw [if_pos (by decide), if_pos (by decide), if_pos (by decide)]
  refine ⟨_, rfl, ?_, ?_, ?_⟩
  · intro s
    have hmap : ((joinRows df_return.rows df_std.rows).map fun t =>
        (⟨t.1, t.2.1, t.2.2, fdiv (fsub t.2.1 rf) t.2.2⟩ : SharpeRow α)).map
          SharpeRow.stock = (joinRows df_return.rows df_std.rows).map Prod.fst := by
      rw [List.map_map]
      rfl
    rw [hmap]
    exact mem_fst_joinRows
  · rw [List.length_map]
    exact le_min (joinRows_length_le_left hnS) (joinRows_length_le_right hnR hnS)
  · intro t ht
    obtain ⟨u, _, hu⟩ := List.mem_map.mp ht
    constructor
    · rw [← hu]
    · intro r sd hr hsd hne
      have hsh : t.sharpe = fdiv (fsub t.ret rf) t.std := by rw [← hu]
      rw [hsh, hr, hsd]
      show (if sd = 0 then none else some ((r - rf) / sd)) = some ((r - rf) / sd)
      rw [if_neg hne]

/-- Concrete ReturnMetric input used to instantiate C3: stocks A and B. -/
def dfRetC3 : MetricFrame ℚ :=
  ⟨["stock", "annualized_return"], [("A", some (1/10)), ("B", some (2/10))]⟩

/-- Concrete RiskMetric input used to instantiate C3: stocks A and C. -/
def dfStdC3 : MetricFrame ℚ :=
  ⟨["stock", "annualized_std"], [("A", some (2/10)), ("C", some (3/10))]⟩

/-- Witness for C3 at concrete inputs sharing only stock A (and with
risk-free rate 0.02, matching the spec scenario `(0.10-0.02)/0.20 =
0.40`). -/
theorem C3_sharpe_inner_join_witness :
    (dfRetC3.cols = ["stock", "annualized_return"] ∧
      dfStdC3.cols = ["stock", "annualized_std"] ∧
      (dfRetC3.rows.map Prod.fst).Nodup ∧ (dfStdC3.rows.map Prod.fst).Nodup) ∧
    (∃ out, calculate_sharpe_ratio dfRetC3 dfStdC3 (2/100) = .ok out ∧
      (∀ s, s ∈ out.rows.map SharpeRow.stock ↔
        s ∈ dfRetC3.rows.map Prod.fst ∧ s ∈ dfStdC3.rows.map Prod.fst) ∧
      out.rows.length ≤ min dfRetC3.rows.length dfStdC3.rows.length ∧
      ∀ t ∈ out.rows, t.sharpe = fdiv (fsub t.ret (2/100)) t.std ∧
        ∀ r sd, t.ret = some r → t.std = some sd → sd ≠ 0 →
          t.sharpe = some ((r - 2/100) / sd)) :=
  ⟨⟨rfl, rfl, by decide, by decide⟩,
    C3_sharpe_inner_join dfRetC3 dfStdC3 (2/100) rfl rfl (by decide) (by decide)⟩

/-- Counterexample to C5 as stated: on inputs whose joined stock has
annualized_std 0, `calculate_sharpe_ratio` neither reports a failure nor
excludes the row: it succeeds and keeps the row, silently giving it the
non-finite sharpe_ratio `(0.10 - 0.02) / 0` (`none`). -/
theorem C5_counterexample :
    calculate_sharpe_ratio
        (⟨["stock", "annualized_return"], [("A", some (1/10))]⟩ : MetricFrame ℚ)
        ⟨["stock", "annualized_std"], [("A", some 0)]⟩ (2/100) =
      .ok ⟨["stock", "annualized_return", "annualized_std", "sharpe_ratio"],
        [⟨"A", some (1/10), some 0, none⟩]⟩ :=
  rfl

/-- C5 amended: `calculate_sharpe_ratio` has no guard against a zero
annualized_std: the call succeeds, the degenerate row is kept rather than
excluded, no error or warning is reported, and the row's sharpe_ratio is
the non-finite float `(annualized_return - risk_free_rate) / 0`
(`none`). -/
theorem C5_amended_zero_std_kept {α : Type} [Sub α] [Div α] [Zero α] [DecidableEq α]
    (df_return df_std : MetricFrame α) (rf : α)
    (hcR : df_return.cols = ["stock", "annualized_return"])
    (hcS : df_std.cols = ["stock", "annualized_std"])
    (s : String) (r : Option α)
    (hr : (s, r) ∈ df_return.rows) (hs : (s, some 0) ∈ df_std.rows) :
    ∃ out, calculate_sharpe_ratio df_return df_std rf = .ok out ∧
      (⟨s, r, some 0, none⟩ : SharpeRow α) ∈ out.rows := by
  unfold calculate_sharpe_ratio
  rw [hcR, hcS]
  rw [if_pos (by decide), if_pos (by decide), if_pos (by decide)]
  refine ⟨_, rfl, ?_⟩
  have hsh : fdiv (fsub r rf) (some (0 : α)) = none := by
    cases r with
    | none => rfl
    | some x =>
      show (if (0 : α) = 0 then none else some ((x - rf) / 0)) = none
      rw [if_pos rfl]
  refine List.mem_map.mpr ⟨(s, r, some 0), ?_, ?_⟩
  · refine List.mem_flatMap.mpr ⟨(s, r), hr, ?_⟩
    exact List.mem_map.mpr ⟨(s, some 0), List.mem_filter.mpr ⟨hs, by simp⟩, rfl⟩
  · simp only [hsh]

/-- Concrete ReturnMetric used to instantiate the amended C5. -/
def dfRetC5 : MetricFrame ℚ :=
  ⟨["stock", "annualized_return"], [("A", some (1/10)), ("B", some (3/10))]⟩

/-- Concrete RiskMetric with a zero annualized_std, used to instantiate
the amended C5. -/
def dfStdC5 : MetricFrame ℚ :=
  ⟨["stock", "annualized_std"], [("A", some 0)]⟩

/-- Witness for the amended C5: the degenerate stock A row survives the
join with a `none` sharpe_ratio and no error. -/
theorem C5_amended_zero_std_kept_witness :
    (dfRetC5.cols = ["stock", "annualized_return"] ∧
      dfStdC5.cols = ["stock", "annualized_std"] ∧
      ("A", some (1/10 : ℚ)) ∈ dfRetC5.rows ∧
      ("A", some (0 : ℚ)) ∈ dfStdC5.rows) ∧
    (∃ out, calculate_sharpe_ratio dfRetC5 dfStdC5 (2/100) = .ok out ∧
      (⟨"A", some (1/10), some 0, none⟩ : SharpeRow ℚ) ∈ out.rows) :=
  ⟨⟨rfl, rfl, List.mem_cons_self _ _, List.mem_cons_self _ _⟩,
    C5_amended_zero_std_kept dfRetC5 dfStdC5 (2/100) rfl rfl "A" (some (1/10))
      (List.mem_cons_self _ _) (List.mem_cons_self _ _)⟩

/-- Counterexample to C7 as stated: on an empty input frame,
`calculate_return` and `calculate_std` do return empty results without
raising, but `calculate_sharpe_ratio` applied to those empty results
raises a `KeyError` instead of returning an empty SharpeMetric: the empty
outputs keep the raw input columns, so the merged frame has no
`annualized_return` column (and with a completely column-less empty input,
the merge key `stock` itself is missing). -/
theorem C7_counterexample :
    (calculate_return ⟨["stock", "date", "close"], []⟩).rows = [] ∧
    (calculate_std ⟨["stock", "date", "close"], []⟩).rows = [] ∧
    calculate_sharpe_ratio (calculate_return ⟨["stock", "date", "close"], []⟩)
        (calculate_std ⟨["stock", "date", "close"], []⟩) (0 : ℝ) =
      .error "KeyError: annualized_return" ∧
    calculate_sharpe_ratio (calculate_return ⟨[], []⟩)
        (calculate_std ⟨[], []⟩) (0 : ℝ) =
      .error "KeyError: stock" :=
  ⟨rfl, rfl, rfl, rfl⟩

/-- C7 amended: emptiness propagates as a value through `calculate_return`
and `calculate_std`, but not through `calculate_sharpe_ratio`: on every
empty input frame whose self-merged column list lacks `annualized_return`
(the case for raw input columns, and trivially for a column-less frame),
the sharpe stage raises a KeyError rather than returning an empty
SharpeMetric. -/
theorem C7_amended_empty_raises (df : ObsFrame) (rf : ℝ)
    (hempty : df.rows = [])
    (hcols : "annualized_return" ∉ mergeCols df.cols df.cols) :
    (calculate_return df).rows = [] ∧ (calculate_std df).rows = [] ∧
    ∃ e, calculate_sharpe_ratio (calculate_return df) (calculate_std df) rf =
      .error e := by
  have h1 : calculate_return df = ⟨df.cols, []⟩ := by
    unfold calculate_return
    rw [hempty]
    rfl
  have h2 : calculate_std df = ⟨df.cols, []⟩ := by
    unfold calculate_std
    rw [hempty]
    rfl
  refine ⟨by rw [h1], by rw [h2], ?_⟩
  rw [h1, h2]
  unfold calculate_sharpe_ratio
  by_cases hst : ("stock" ∈ df.cols ∧ "stock" ∈ df.cols)
  · rw [if_pos hst, if_neg hcols]
    exact ⟨_, rfl⟩
  · rw [if_neg hst]
    exact ⟨_, rfl⟩

/-- Witness for the amended C7 at a concrete empty frame with raw
columns. -/
theorem C7_amended_empty_raises_witness :
    ((⟨["stock", "date", "close"], []⟩ : ObsFrame).rows = [] ∧
      "annualized_return" ∉ mergeCols ["stock", "date", "close"]
        ["stock", "date", "close"]) ∧
    ((calculate_return ⟨["stock", "date", "close"], []⟩).rows = [] ∧
      (calculate_std ⟨["stock", "date", "close"], []⟩).rows = [] ∧
      ∃ e, calculate_sharpe_ratio (calculate_return ⟨["stock", "date", "close"], []⟩)
        (calculate_std ⟨["stock", "date", "close"], []⟩) (1 : ℝ) = .error e) :=
  ⟨⟨rfl, by decide⟩,
    C7_amended_empty_raises ⟨["stock", "date", "close"], []⟩ 1 rfl (by decide)⟩

/-- The `ssxm` statistic of `linregress` (biased variance of x). -/
def ssxmOf (pts : List (ℚ × ℚ)) : ℚ :=
  ((pts.map Prod.fst).map (fun x => (x - meanQ (pts.map Prod.fst)) ^ 2)).sum /
    (pts.length : ℚ)

/-- The `ssxym` statistic of `linregress` (biased covariance of x and y). -/
def ssxymOf (pts : List (ℚ × ℚ)) : ℚ :=
  (pts.map (fun p => (p.1 - meanQ (pts.map Prod.fst)) *
    (p.2 - meanQ (pts.map Prod.snd)))).sum / (pts.length : ℚ)

/-- The fitted OLS slope `ssxym / ssxm`. -/
def slopeOf (pts : List (ℚ × ℚ)) : ℚ := ssxymOf pts / ssxmOf pts

/-- The fitted OLS intercept `ymean - slope * xmean`. -/
def interceptOf (pts : List (ℚ × ℚ)) : ℚ :=
  meanQ (pts.map Prod.snd) - slopeOf pts * meanQ (pts.map Prod.fst)

lemma isEmpty_false_of_ne_nil {α : Type} {l : List α} (h : l ≠ []) :
    l.isEmpty = false := by
  cases l with
  | nil => exact absurd rfl h
  | cons a tl => rfl

lemma linregress_ok {pts : List (ℚ × ℚ)} (hne : pts ≠ [])
    (hnotall : ¬(1 < pts.length ∧ allSameX pts = true))
    (hssxm : ssxmOf pts ≠ 0) :
    linregress pts = .ok (some (slopeOf pts), some (interceptOf pts)) := by
  unfold linregress
  rw [if_neg (by simp [isEmpty_false_of_ne_nil hne]), if_neg hnotall]
  show (if ssxmOf pts = 0 then Except.ok (none, none)
      else Except.ok (some (slopeOf pts), some (interceptOf pts))) =
    Except.ok (some (slopeOf pts), some (interceptOf pts))
  rw [if_neg hssxm]

lemma exists_ne_of_allSameX_false {pts : List (ℚ × ℚ)}
    (hvar : allSameX pts = false) (c : ℚ) : ∃ x ∈ pts.map Prod.fst, x ≠ c := by
  by_contra hcon
  push_neg at hcon
  have hT : allSameX pts = true := by
    unfold allSameX
    rw [List.all_eq_true]
    intro v hv
    have hne : pts.map Prod.fst ≠ [] := by
      intro hnil
      rw [hnil] at hv
      simp at hv
    obtain ⟨w, tl, hw⟩ := List.exists_cons_of_ne_nil hne
    have hwmem : w ∈ pts.map Prod.fst := by rw [hw]; exact List.mem_cons_self _ _
    rw [hw]
    simp only [List.headD_cons]
    rw [hcon v hv, hcon w hwmem]
    simp
  rw [hvar] at hT
  exact Bool.false_ne_true hT

lemma sum_sq_pos {xs : List ℚ} {c : ℚ} (h : ∃ x ∈ xs, x ≠ c) :
    0 < (xs.map (fun x => (x - c) ^ 2)).sum := by
  induction xs with
  | nil => simp at h
  | cons a tl ih =>
    rw [List.map_cons, List.sum_cons]
    have htl0 : 0 ≤ (tl.map (fun x => (x - c) ^ 2)).sum := by
      apply List.sum_nonneg
      intro y hy
      obtain ⟨x, _, hx⟩ := List.mem_map.mp hy
      rw [← hx]
      exact sq_nonneg _
    obtain ⟨x, hx, hxc⟩ := h
    rcases List.mem_cons.mp hx with rfl | hx'
    · have h1 : 0 < (x - c) ^ 2 :=
        lt_of_le_of_ne (sq_nonneg _) (Ne.symm (pow_ne_zero 2 (sub_ne_zero.mpr hxc)))
      linarith
    · have h1 : 0 < (tl.map (fun x => (x - c) ^ 2)).sum := ih ⟨x, hx', hxc⟩
      have h2 : 0 ≤ (a - c) ^ 2 := sq_nonneg _
      linarith

lemma ssxmOf_pos {pts : List (ℚ × ℚ)} (hn : 1 ≤ pts.length)
    (hvar : allSameX pts = false) : 0 < ssxmOf pts := by
  have hex := exists_ne_of_allSameX_false hvar (meanQ (pts.map Prod.fst))
  have hsum := sum_sq_pos hex
  have hlen : (0 : ℚ) < (pts.length : ℚ) := by
    have : 0 < pts.length := hn
    exact_mod_cast this
  exact div_pos hsum hlen

/-- C2: on every input on which the regression is defined (at least two
points, not all x values identical), `test_hypothesis` reports a one-sided
p-value equal to the two-sided p-value halved when the fitted OLS slope is
positive, and equal to exactly 1 when the fitted slope is nonpositive,
regardless of the two-sided p-value's magnitude. -/
theorem C2_one_sided_p_law (pts : List (ℚ × ℚ)) (p2 alpha : ℚ)
    (hn : 2 ≤ pts.length) (hvar : allSameX pts = false) :
    ∃ res, test_hypothesis pts p2 alpha = .ok res ∧
      res.slope = some (slopeOf pts) ∧
      (0 < slopeOf pts → res.pOneSided = p2 / 2) ∧
      (slopeOf pts ≤ 0 → res.pOneSided = 1) := by
  have hne : pts ≠ [] := by
    intro h
    rw [h] at hn
    simp at hn
  have hnotall : ¬(1 < pts.length ∧ allSameX pts = true) := by
    rintro ⟨_, h⟩
    rw [hvar] at h
    exact Bool.false_ne_true h
  have hlr := linregress_ok hne hnotall (ne_of_gt (ssxmOf_pos (by omega) hvar))
  unfold test_hypothesis
  rw [hlr]
  refine ⟨_, rfl, rfl, ?_, ?_⟩
  · intro hpos
    show (if gtZero (some (slopeOf pts)) = true then p2 / 2 else 1) = p2 / 2
    rw [if_pos]
    show decide (0 < slopeOf pts) = true
    exact decide_eq_true hpos
  · intro hle
    show (if gtZero (some (slopeOf pts)) = true then p2 / 2 else 1) = 1
    rw [if_neg]
    show ¬ decide (0 < slopeOf pts) = true
    rw [decide_eq_false (not_lt.mpr hle)]
    exact Bool.false_ne_true

/-- Witness for C2 at two concrete points with distinct x values. -/
theorem C2_one_sided_p_law_witness :
    (2 ≤ ([((1 : ℚ), (5 : ℚ)), (2, 7)] : List (ℚ × ℚ)).length ∧
      allSameX [((1 : ℚ), (5 : ℚ)), (2, 7)] = false) ∧
    (∃ res, test_hypothesis [((1 : ℚ), (5 : ℚ)), (2, 7)] (1/10) (5/100) = .ok res ∧
      res.slope = some (slopeOf [((1 : ℚ), (5 : ℚ)), (2, 7)]) ∧
      (0 < slopeOf [((1 : ℚ), (5 : ℚ)), (2, 7)] → res.pOneSided = (1/10) / 2) ∧
      (slopeOf [((1 : ℚ), (5 : ℚ)), (2, 7)] ≤ 0 → res.pOneSided = 1)) :=
  ⟨⟨by decide, by decide⟩,
    C2_one_sided_p_law [((1 : ℚ), (5 : ℚ)), (2, 7)] (1/10) (5/100)
      (by decide) (by decide)⟩

/-- Counterexample to C6 as stated: a SharpeMetric input with exactly one
(risk, return) pair has fewer than 2 pairs, yet `test_hypothesis` does not
raise: scipy's single-point regression degenerates to the NaN quotient
`0/0`, and the function returns normally with a NaN slope, NaN intercept,
one-sided p-value 1.0 (every comparison with NaN is false) and a
fail-to-reject verdict. -/
theorem C6_counterexample :
    test_hypothesis [((1 : ℚ), (2 : ℚ))] (1/10) (5/100) =
      .ok ⟨none, none, 1, false⟩ := by
  have hssxm : ssxmOf [((1 : ℚ), (2 : ℚ))] = 0 := by
    unfold ssxmOf meanQ
    norm_num
  have hlr : linregress [((1 : ℚ), (2 : ℚ))] = .ok (none, none) := by
    unfold linregress
    rw [if_neg (by simp), if_neg (by simp)]
    show (if ssxmOf [((1 : ℚ), (2 : ℚ))] = 0 then Except.ok (none, none)
        else Except.ok (some (slopeOf [((1 : ℚ), (2 : ℚ))]),
          some (interceptOf [((1 : ℚ), (2 : ℚ))]))) = Except.ok (none, none)
    rw [if_pos hssxm]
  unfold test_hypothesis
  rw [hlr]
  simp [gtZero, Bool.and_false]

/-- C6 amended: `test_hypothesis` does raise on an empty SharpeMetric
table (scipy rejects empty regression inputs) and on two or more pairs
whose risk values are all identical (zero variance in the independent
variable); but a single (risk, return) pair does not raise — it returns a
NaN-slope result (see the counterexample). -/
theorem C6_amended_raises (pts : List (ℚ × ℚ)) (p2 alpha : ℚ) :
    (pts = [] → test_hypothesis pts p2 alpha = .error "Inputs must not be empty.") ∧
    (2 ≤ pts.length → allSameX pts = true →
      test_hypothesis pts p2 alpha =
        .error "Cannot calculate a linear regression if all x values are identical") := by
  constructor
  · rintro rfl
    rfl
  · intro hlen hsame
    have hne : pts ≠ [] := by
      intro h
      rw [h] at hlen
      simp at hlen
    unfold test_hypothesis linregress
    rw [if_neg (by simp [isEmpty_false_of_ne_nil hne]), if_pos ⟨by omega, hsame⟩]

/-- Witness for the amended C6: the empty table and a two-row table with
identical risk values both raise. -/
theorem C6_amended_raises_witness :
    (test_hypothesis ([] : List (ℚ × ℚ)) 1 1 = .error "Inputs must not be empty.") ∧
    (2 ≤ ([((1 : ℚ), (0 : ℚ)), (1, 5)] : List (ℚ × ℚ)).length ∧
      allSameX [((1 : ℚ), (0 : ℚ)), (1, 5)] = true) ∧
    test_hypothesis [((1 : ℚ), (0 : ℚ)), (1, 5)] 1 1 =
      .error "Cannot calculate a linear regression if all x values are identical" :=
  ⟨(C6_amended_raises [] 1 1).1 rfl,
    ⟨by decide, by decide⟩,
    (C6_amended_raises [((1 : ℚ), (0 : ℚ)), (1, 5)] 1 1).2 (by decide) (by decide)⟩

/-- C10: `calculate_return`, `calculate_std` and `calculate_sharpe_ratio`
leave their input frames unchanged: in the explicit-state reading, each
body rebinds its local name to a freshly allocated frame (`sort_values`,
`pd.merge`) before any in-place column assignment, so after the call the
caller's frames are exactly the ones passed in, and the results are the
pure functions of the inputs. -/
theorem C10_inputs_unchanged {α : Type} [Sub α] [Div α] [Zero α] [DecidableEq α]
    (df : ObsFrame) (df_return df_std : MetricFrame α) (rf : α) :
    (calculate_return_effect df).2 = df ∧
    (calculate_std_effect df).2 = df ∧
    (calculate_sharpe_ratio_effect df_return df_std rf).2 = (df_return, df_std) ∧
    (calculate_return_effect df).1 = calculate_return df ∧
    (calculate_std_effect df).1 = calculate_std df ∧
    (calculate_sharpe_ratio_effect df_return df_std rf).1 =
      calculate_sharpe_ratio df_return df_std rf :=
  ⟨rfl, rfl, rfl, rfl, rfl, rfl⟩
